import Mathlib

/-
  Verification of the yt-trimmer task orchestration and progress-streaming
  engine (src/src/robots/download.js) against its natural-language
  specification.

  Shallow embedding conventions:
  * JavaScript numbers that hold percentages are modelled as rationals (ℚ);
    `Math.round` is modelled as `jsRound` (floor of x + 1/2, the JS rounding
    rule for non-negative values).  The reported integer percents of the
    program are unchanged by this idealisation.
  * The working directory is modelled as a list of file names (the server
    keeps every artifact in one directory, `../../`); `fs.existsSync` is
    membership, `fs.readdirSync` is the list itself and `fs.unlinkSync` is
    removal by filtering (individual deletion failures are swallowed by the
    source's per-file try/catch, so deletions are modelled as succeeding).
  * A subprocess run is modelled by the observable data the orchestrator
    consumes: the interleaved stdout/stderr chunks, the exit code, and
    whether the cut tool created its output file.
  * `NaN` produced by `parseInt` is modelled by `Option` (`none` = NaN);
    JavaScript comparisons against NaN are false, which the embedding
    reproduces explicitly where it matters.
-/

/-! ## String helpers (substring / prefix tests used by the server code) -/

/-- Boolean prefix test on character lists. -/
def startsWithL : List Char → List Char → Bool
  | [], _ => true
  | _ :: _, [] => false
  | a :: as, b :: bs => a == b && startsWithL as bs

/-- Boolean substring test on character lists: `needle` occurs contiguously in `hay`. -/
def containsL : List Char → List Char → Bool
  | needle, [] => startsWithL needle []
  | needle, c :: rest => startsWithL needle (c :: rest) || containsL needle rest

/-- JavaScript `hay.includes(needle)` on strings. -/
def substrB (needle hay : String) : Bool := containsL needle.toList hay.toList

/-- JavaScript `s.startsWith(pre)`. -/
def strStartsWith (s pre : String) : Bool := startsWithL pre.toList s.toList

/-- JavaScript `s.endsWith(suf)`: a suffix is a prefix of the reversal. -/
def strEndsWith (s suf : String) : Bool :=
  startsWithL suf.toList.reverse s.toList.reverse

/-- Split a character list on a single separator character; like JavaScript
`split`, the empty input yields one empty group and a trailing separator
yields a trailing empty group. -/
def splitOnCh (sep : Char) : List Char → List (List Char)
  | [] => [[]]
  | c :: rest =>
    match splitOnCh sep rest with
    | [] => [[]]
    | g :: gs => if c == sep then [] :: g :: gs else (c :: g) :: gs

/-- JavaScript `s.split(sep)` for a one-character separator. -/
def strSplitOn (s : String) (sep : Char) : List String :=
  (splitOnCh sep s.toList).map String.mk

/-- Numeric value of a list of decimal digit characters (as read left to right). -/
def digitsToNat (ds : List Char) : Nat :=
  ds.foldl (fun n c => 10 * n + (c.toNat - '0'.toNat)) 0

/-! ## Named string literals of the source -/

def emptyStr : String := ""
def colonStr : String := ":"
def dotStr : String := "."
def mp4Str : String := "mp4"
def mp3Str : String := "mp3"
def mp4Ext : String := ".mp4"
def mp3Ext : String := ".mp3"
def webmExt : String := ".webm"
def mkvExt : String := ".mkv"
def underscoreStr : String := "_"
def tempPre : String := "temp_"
def tempUndefined : String := "temp_undefined"
def timeKey : String := "time="
def pctStr : String := "%"

def msgStartDL : String := "Memulai pengunduhan video..."
def msgDL1 : String := "Mengunduh video... "
def msgDLdone : String := "Download selesai, mempersiapkan trimming..."
def msgNoDownload : String := "File download tidak ditemukan"
def msgTrimStart : String := "Memotong video sesuai durasi yang dipilih..."
def msgTrimming : String := "Memotong video..."
def msgCleaning : String := "Membersihkan file temporary..."
def msgNoResult : String := "File hasil trim tidak ditemukan"
def msgDone : String := "Selesai! Mengunduh file..."
def msgErrPre : String := "Error: "
def dlFail1 : String := "Download gagal (code "
def dlFail2 : String := "): "
def ffFail1 : String := "ffmpeg exited with code "
def defaultCliName : String := "video_potong.mp4"

/-! ## Time parsing (`timeToSeconds`, src/src/robots/download.js lines 5-15)

JavaScript source:
```
function timeToSeconds(timeString) {
  if (!timeString) return 0;
  const parts = timeString.toString().split(':');
  let seconds = 0;
  let multiplier = 1;
  while (parts.length > 0) {
    seconds += multiplier * parseInt(parts.pop(), 10);
    multiplier *= 60;
  }
  return seconds;
}
```
-/

/-- `parseInt(s, 10)` restricted to the shapes that occur in time strings:
the value of the leading run of decimal digits, `none` when there is no
leading digit (JavaScript then yields `NaN`).  Leading whitespace / sign
handling of `parseInt` is not exercised by colon-separated time segments. -/
def parseIntOpt (s : String) : Option Nat :=
  let ds := s.toList.takeWhile Char.isDigit
  if ds.isEmpty then none else some (digitsToNat ds)

/-- The `while` loop of `timeToSeconds`: segments are consumed from the end
(`parts.pop()`), the first with multiplier `m`, each next with `m * 60`.
`none` models the sum having become `NaN`. -/
def sumSegs : List String → Int → Option Int
  | [], _ => some 0
  | p :: rest, m =>
    match parseIntOpt p, sumSegs rest (m * 60) with
    | some v, some r => some (m * (v : Int) + r)
    | _, _ => none

/-- `timeToSeconds`: empty (falsy) input short-circuits to 0; otherwise split
on `:` and fold the segments right-to-left with multipliers 1, 60, 3600, … -/
def timeToSeconds (s : String) : Option Int :=
  if s = emptyStr then some 0 else sumSegs (strSplitOn s ':').reverse 1

/-- Parse every segment, or fail (used to state the fold law of `timeToSeconds`). -/
def allParse : List String → Option (List Nat)
  | [] => some []
  | p :: rest =>
    match parseIntOpt p, allParse rest with
    | some v, some vs => some (v :: vs)
    | _, _ => none

/-- Weighted sum of parsed segments, most significant first:
`weightedSum [h, m, s] = h * 60² + m * 60 + s`. -/
def weightedSum : List Nat → Int
  | [] => 0
  | v :: rest => (v : Int) * 60 ^ rest.length + weightedSum rest

/-- Same sum with least significant segment first (mirrors the pop-loop). -/
def revSum : List Nat → Int
  | [] => 0
  | v :: rest => (v : Int) + 60 * revSum rest

/-! ## Progress events -/

/-- Status strings carried by progress events (`connected` is only produced
by the subscription handler; the orchestrator produces the other five). -/
inductive Status
  | connected
  | downloading
  | trimming
  | cleaning
  | complete
  | error
deriving DecidableEq

/-- A progress event as written to the SSE stream: the JSON object
`{ status, progress, message?, filename? }`. -/
structure Event where
  status : Status
  progress : Int
  message : Option String
  filename : Option String
deriving DecidableEq

/-! ## Percentage extraction from subprocess output

The server matches each output chunk against the regular expression
`(\d+\.?\d*)%` and feeds `parseFloat` of the first captured group to the
scaling rule.  `matchPercentAt` decides whether a match starts at the head
of the character list; `extractPercentAux` scans for the leftmost match,
exactly as the regex engine does. -/

/-- Match of `\d+\.?\d*%` starting at the head of `l`, if any: the integer
digits, optionally a dot and fraction digits, then `%`.  Returns the two
digit groups of the captured token. -/
def matchPercentAt (l : List Char) : Option (List Char × List Char) :=
  let d1 := l.takeWhile Char.isDigit
  if d1.isEmpty then none
  else
    match l.drop d1.length with
    | '.' :: r2 =>
      let d2 := r2.takeWhile Char.isDigit
      match r2.drop d2.length with
      | '%' :: _ => some (d1, d2)
      | _ => none
    | '%' :: _ => some (d1, [])
    | _ => none

/-- Leftmost match of `(\d+\.?\d*)%` in the chunk. -/
def extractPercentAux : List Char → Option (List Char × List Char)
  | [] => none
  | c :: rest =>
    match matchPercentAt (c :: rest) with
    | some t => some t
    | none => extractPercentAux rest

/-- `parseFloat` of a captured token `d1[.d2]`. -/
def tokVal (t : List Char × List Char) : ℚ :=
  (digitsToNat t.1 : ℚ) + (digitsToNat t.2 : ℚ) / (10 : ℚ) ^ t.2.length

/-- `output.match(/(\d+\.?\d*)%/)` followed by `parseFloat(match[1])`. -/
def extractPercent (s : String) : Option ℚ := (extractPercentAux s.toList).map tokVal

/-! ## Download stage (yt-dlp spawn, src/src/robots/download.js lines 379-442) -/

/-- `Math.round` for the non-negative values occurring here: floor of x + 1/2. -/
def jsRound (q : ℚ) : Int := ⌊q + 1 / 2⌋

/-- Scaling rule of the downloading state:
`Math.min(5 + downloadPercent * 0.6, 65)`. -/
def scaleDL (p : ℚ) : ℚ := min (5 + p * (6 / 10)) 65

/-- Message of a forwarded download progress event:
"Mengunduh video... ${Math.round(downloadPercent)}%". -/
def dlProgMsg (p : ℚ) : String := msgDL1 ++ toString (jsRound p) ++ pctStr

/-- Mutable state of the download stage's chunk handlers:
`lastProgress` (initially 5) and the events sent so far. -/
structure DLState where
  lastProgress : ℚ
  events : List Event
deriving DecidableEq

/-- One `data` callback of the yt-dlp stdout/stderr handlers (both run the
same percentage logic): extract a percentage, scale it, and forward it only
when the scaled value strictly exceeds `lastProgress`. -/
def dlHandleChunk (st : DLState) (s : String) : DLState :=
  match extractPercent s with
  | none => st
  | some p =>
    let scaled := scaleDL p
    if st.lastProgress < scaled then
      ⟨scaled, st.events ++ [⟨Status.downloading, jsRound scaled, some (dlProgMsg p), none⟩]⟩
    else st

/-- Which stream a chunk arrived on (stderr chunks are additionally
accumulated into `errorOutput`). -/
inductive Src
  | stdout
  | stderr
deriving DecidableEq

/-- Consume the interleaved yt-dlp output chunks, threading the handler
state and the accumulated `errorOutput` string. -/
def dlRun : DLState → String → List (Src × String) → DLState × String
  | st, errOut, [] => (st, errOut)
  | st, errOut, (src, s) :: rest =>
    dlRun (dlHandleChunk st s)
      (match src with
       | Src.stderr => errOut ++ s
       | Src.stdout => errOut) rest

/-- The whole download stage up to process exit: starts with
`lastProgress = 5`, no events, empty `errorOutput`. -/
def dlStage (chunks : List (Src × String)) : DLState × String :=
  dlRun ⟨5, []⟩ emptyStr chunks

/-- The stderr text a run accumulates (specification-side description,
compared with `dlStage` in the theorems): the concatenation, in arrival
order, of exactly the stderr chunks. -/
def stderrConcat : List (Src × String) → String
  | [] => emptyStr
  | (Src.stderr, s) :: rest => s ++ stderrConcat rest
  | (Src.stdout, _) :: rest => stderrConcat rest

/-! ## File name helpers (`path` operations on the flat working directory) -/

/-- `path.extname`: the suffix from the last dot on, empty when there is no
dot or the only dot is the leading character. -/
def extName (s : String) : String :=
  let cs := s.toList
  let revAfter := cs.reverse.takeWhile (fun c => c ≠ '.')
  if revAfter.length + 1 < cs.length + 1 ∧ revAfter.length + 1 ≠ cs.length then
    String.mk ('.' :: revAfter.reverse)
  else emptyStr

/-- `path.basename(p, suffix)` on a bare file name: strip `suffix` when the
name ends with it and is not equal to it. -/
def baseNameSuf (s suf : String) : String :=
  if s ≠ suf ∧ strEndsWith s suf = true ∧ suf ≠ emptyStr then s.dropRight suf.length else s

/-- File names the resolver accepts as media output. -/
def mediaExt (f : String) : Bool :=
  strEndsWith f mp4Ext || strEndsWith f mp3Ext || strEndsWith f webmExt || strEndsWith f mkvExt

/-- `findDownloadedFile` (lines 337-355): prefer the exact temp path when it
exists, otherwise the first directory entry that matches the temp pattern
and carries a media extension, otherwise fall back to the intended path. -/
def findDownloadedFile (dir : List String) (basePath : String) : String :=
  let basename := baseNameSuf basePath (extName basePath)
  let alt := baseNameSuf basePath mp4Ext
  let cands := dir.filter (fun f => strStartsWith f basename || substrB alt f)
  if basePath ∈ dir then basePath
  else
    match cands.find? (fun f => decide (f ∈ dir) && mediaExt f) with
    | some f => f
    | none => basePath

/-- Success-path cleanup (lines 519-540): delete every directory entry whose
name starts with the temp base name or with `temp_` + the second `_`-separated
fragment of the task id, except the final output file. -/
def successCleanup (taskId tempFile finalFile : String) (dir : List String) : List String :=
  let basename := baseNameSuf tempFile (extName tempFile)
  let fragment :=
    match (strSplitOn taskId '_').get? 1 with
    | some x => tempPre ++ x
    | none => tempUndefined
  dir.filter (fun f =>
    !((strStartsWith f basename || strStartsWith f fragment) && f ≠ finalFile))

/-- Error-path cleanup (lines 560-573): delete every directory entry whose
name contains the task id or starts with the temp name minus `.mp4`. -/
def errorCleanup (taskId tempFile : String) (dir : List String) : List String :=
  dir.filter (fun f =>
    !(substrB taskId f || strStartsWith f (baseNameSuf tempFile mp4Ext)))

/-! ## Task orchestration (`processVideo`, src/src/robots/download.js lines 333-581) -/

/-- The data the `/trim` route hands to `processVideo` that the state machine
observes at the file-name level (flat working directory): the task id, the
output extension (`mp4` or `mp3`) and the final output file name
`${filename}.${extension}`. -/
structure TrimTask where
  taskId : String
  ext : String
  outName : String
deriving DecidableEq

/-- Temp path of a task: `temp_${taskId}.${format === 'mp3' ? 'mp3' : 'mp4'}`. -/
def tempName (t : TrimTask) : String := tempPre ++ t.taskId ++ dotStr ++ t.ext

/-- Observable behaviour of one run's external collaborators:
yt-dlp's interleaved output chunks and exit code, the working directory
listing once the download stage has finished, ffmpeg's stderr chunks and
exit code, and whether ffmpeg created its output file. -/
structure RunTrace where
  dlChunks : List (Src × String)
  dlExit : Int
  dir : List String
  ffChunks : List String
  ffExit : Int
  ffOutputCreated : Bool
deriving DecidableEq

def ev5 : Event := ⟨Status.downloading, 5, some msgStartDL, none⟩
def ev65 : Event := ⟨Status.downloading, 65, some msgDLdone, none⟩
def ev70 : Event := ⟨Status.trimming, 70, some msgTrimStart, none⟩
def ev85 : Event := ⟨Status.trimming, 85, some msgTrimming, none⟩
def ev96 : Event := ⟨Status.cleaning, 96, some msgCleaning, none⟩
def evComplete (fn : String) : Event := ⟨Status.complete, 100, some msgDone, some fn⟩
def evError (m : String) : Event := ⟨Status.error, 0, some (msgErrPre ++ m), none⟩

/-- Message of the download-stage rejection:
"Download gagal (code ${code}): ${errorOutput.substring(0, 200)}". -/
def dlFailMsg (code : Int) (errOut : String) : String :=
  dlFail1 ++ toString code ++ dlFail2 ++ errOut.take 200

/-- Message of the cut-stage rejection: "ffmpeg exited with code ${code}". -/
def ffFailMsg (code : Int) : String := ffFail1 ++ toString code

/-- Trimming-stage activity events: one fixed 85% event per ffmpeg stderr
chunk containing "time=". -/
def ffEvents (chunks : List String) : List Event :=
  (chunks.filter (fun c => substrB timeKey c)).map (fun _ => ev85)

/-- The working directory as observed after the cut stage ran: ffmpeg's
output file is present exactly when the tool created it. -/
def dirAtCut (t : TrimTask) (tr : RunTrace) : List String :=
  if tr.ffOutputCreated ∧ t.outName ∉ tr.dir then tr.dir ++ [t.outName] else tr.dir

/-- Result of the `try` block of `processVideo`: the events sent before any
error handling, the error thrown (if any), and the directory contents. -/
structure CoreOut where
  events : List Event
  err : Option String
  dir : List String
deriving DecidableEq

/-- The `try` block of `processVideo` (lines 357-555), in source order:
initial 5% event; download stage with scaled progress events; rejection on
non-zero yt-dlp exit; 65% event; file resolution and existence check; 70%
event; per-chunk 85% trimming events; rejection on non-zero ffmpeg exit;
96% cleaning event; success-path cleanup; final-file existence check;
terminal complete event. -/
def processCore (t : TrimTask) (tr : RunTrace) : CoreOut :=
  let dl := dlStage tr.dlChunks
  let evs1 := ev5 :: dl.1.events
  if tr.dlExit = 0 then
    let evs2 := evs1 ++ [ev65]
    if findDownloadedFile tr.dir (tempName t) ∈ tr.dir then
      let evs3 := evs2 ++ ev70 :: ffEvents tr.ffChunks
      if tr.ffExit = 0 then
        let evs4 := evs3 ++ [ev96]
        let dir2 := successCleanup t.taskId (tempName t) t.outName (dirAtCut t tr)
        if t.outName ∈ dir2 then ⟨evs4 ++ [evComplete t.outName], none, dir2⟩
        else ⟨evs4, some msgNoResult, dir2⟩
      else ⟨evs3, some (ffFailMsg tr.ffExit), dirAtCut t tr⟩
    else ⟨evs2, some msgNoDownload, tr.dir⟩
  else ⟨evs1, some (dlFailMsg tr.dlExit dl.2), tr.dir⟩

/-- `processVideo`: the `try` block, and on a thrown error the `catch` block
(lines 557-580): error-path cleanup of the working directory followed by the
terminal error event `{ status:'error', progress: 0, message: 'Error: …' }`.
Returns the full event sequence and the final directory contents. -/
def processVideo (t : TrimTask) (tr : RunTrace) : List Event × List String :=
  let c := processCore t tr
  match c.err with
  | none => (c.events, c.dir)
  | some m => (c.events ++ [evError m], errorCleanup t.taskId (tempName t) c.dir)

/-! ## Progress bus (SSE registry, src/src/robots/download.js lines 91-92 and 233-266) -/

/-- The fixed first event every new SSE connection receives:
`{ status: 'connected', progress: 0 }`. -/
def connectedEvent : Event := ⟨Status.connected, 0, none, none⟩

/-- Server-side shared state: the `progressStreams` map (task id → live
sink), the `taskProgress` map (task id → last snapshot), and what each sink
has received so far (sinks are named by numbers). -/
structure ServerState where
  progressStreams : List (String × Nat)
  taskProgress : List (String × Event)
  written : List (Nat × List Event)
deriving DecidableEq

/-- Lookup in the `progressStreams` map. -/
def getS (l : List (String × Nat)) (k : String) : Option Nat :=
  (l.find? (fun p => p.1 == k)).map (fun p => p.2)

/-- `Map.set` on the `progressStreams` map: last write wins. -/
def setS (l : List (String × Nat)) (k : String) (v : Nat) : List (String × Nat) :=
  (k, v) :: l.filter (fun p => p.1 != k)

/-- Lookup in the `taskProgress` map. -/
def getT (l : List (String × Event)) (k : String) : Option Event :=
  (l.find? (fun p => p.1 == k)).map (fun p => p.2)

/-- `Map.set` on the `taskProgress` map. -/
def setT (l : List (String × Event)) (k : String) (v : Event) : List (String × Event) :=
  (k, v) :: l.filter (fun p => p.1 != k)

/-- Events a sink has received so far. -/
def getW (l : List (Nat × List Event)) (k : Nat) : List Event :=
  ((l.find? (fun p => p.1 == k)).map (fun p => p.2)).getD []

/-- Record a sink's received events. -/
def setW (l : List (Nat × List Event)) (k : Nat) (v : List Event) : List (Nat × List Event) :=
  (k, v) :: l.filter (fun p => p.1 != k)

/-- The `GET /progress/:taskId` handler (lines 233-254): write the fixed
`connected` event to the new response stream, then store that stream in
`progressStreams` under the task id (replacing any previous sink).  The
stored `taskProgress` snapshot is not consulted. -/
def subscribe (st : ServerState) (taskId : String) (sink : Nat) : ServerState :=
  { progressStreams := setS st.progressStreams taskId sink
    taskProgress := st.taskProgress
    written := setW st.written sink (getW st.written sink ++ [connectedEvent]) }

/-- `sendProgress` (lines 259-266): push the event to the live sink if one
is attached, and store it as the task's latest snapshot either way. -/
def sendProgress (st : ServerState) (taskId : String) (e : Event) : ServerState :=
  let written :=
    match getS st.progressStreams taskId with
    | some sink => setW st.written sink (getW st.written sink ++ [e])
    | none => st.written
  { progressStreams := st.progressStreams
    taskProgress := setT st.taskProgress taskId e
    written := written }

/-! ## Request validation

The `/trim` route (lines 272-328) first runs
`validators.validateTrimRequest(req.body)` and answers 400 without starting
any work when it fails; only a validated request gets a task id and a
background `processVideo` call.  `src/utils/validators.js` itself is not
part of the sources, so its checks are modelled from the specification. -/

/-- A `/trim` request body after field extraction. -/
structure TrimRequest where
  url : String
  start : String
  endT : String
  filename : String
  format : String
  quality : String
deriving DecidableEq

/-- `computeDuration(start, end) = parseTimeToSeconds(end) - parseTimeToSeconds(start)`
(`none` models a NaN operand). -/
def computeDuration (start endT : String) : Option Int :=
  match timeToSeconds start, timeToSeconds endT with
  | some a, some b => some (b - a)
  | _, _ => none

def ytHost1 : String := "youtube.com/"
def ytHost2 : String := "youtu.be/"

/-- Modelled from the spec: the URL-shape predicate of the missing
`src/utils/validators.js` ("URL must match a recognized video-host
pattern"); recognized hosts are youtube.com and youtu.be. -/
def urlOk (u : String) : Bool := substrB ytHost1 u || substrB ytHost2 u

/-- Digit-only test. -/
def digitsOnly (l : List Char) : Bool := l.all Char.isDigit

/-- A 1-2 digit segment (`\d{1,2}`). -/
def seg12 (x : String) : Bool :=
  (decide (x.length = 1) || decide (x.length = 2)) && digitsOnly x.toList

/-- The final time segment `\d{2}(\.\d+)?`. -/
def secSeg (y : String) : Bool :=
  match strSplitOn y '.' with
  | [d] => decide (d.length = 2) && digitsOnly d.toList
  | [d, f] => decide (d.length = 2) && digitsOnly d.toList &&
      decide (1 ≤ f.length) && digitsOnly f.toList
  | _ => false

/-- Modelled from the spec: the time-string pattern of the missing
`src/utils/validators.js` — `^(\d{1,2}:)?\d{1,2}:\d{2}(\.\d+)?$`
(`HH:MM:SS[.ms]` or `MM:SS`). -/
def timePatternOk (s : String) : Bool :=
  match strSplitOn s ':' with
  | [a, b] => seg12 a && secSeg b
  | [a, b, c] => seg12 a && seg12 b && secSeg c
  | _ => false

/-- Modelled from the spec: `validators.validateTrimRequest` of the missing
`src/utils/validators.js`.  Per spec section 4.4, validation performed before
any subprocess launches requires: the URL matches a recognized video-host
pattern, start and end each match the time-string pattern, and the computed
duration is strictly positive (a NaN duration cannot certify positivity and
is rejected).  Filename sanitization substitutes rather than rejects and so
does not affect validity. -/
def validateTrimRequest (r : TrimRequest) : Bool :=
  urlOk r.url && timePatternOk r.start && timePatternOk r.endT &&
    (match computeDuration r.start r.endT with
     | some d => decide (0 < d)
     | none => false)

/-- The extension chosen by the route: `format === 'mp3' ? 'mp3' : 'mp4'`. -/
def extOf (format : String) : String := if format = mp3Str then mp3Str else mp4Str

/-- The `POST /trim` handler: on validation failure respond 400 and launch
nothing (`none`); otherwise respond with a task id and hand a `TrimTask` to
the background `processVideo` (`some`).  The task id itself is generated
from the clock and a random suffix in the source, so it is a parameter. -/
def trimHandler (taskId : String) (r : TrimRequest) : Option TrimTask :=
  if validateTrimRequest r = true then
    some ⟨taskId, extOf r.format, r.filename ++ dotStr ++ extOf r.format⟩
  else none

/-! ## The legacy CLI path (`download`, src/src/robots/download.js lines 17-68) -/

/-- Outcome of the CLI `download` function: either the duration validation
rejects before any subprocess, or the yt-dlp/ffmpeg pipeline is launched
with the resolved file name and duration (`none` = NaN duration, which the
`duration <= 0` test does not catch). -/
inductive CLIOutcome
  | rejectedDuration
  | launched (fileName : String) (duration : Option Int)
deriving DecidableEq

/-- File-name defaulting of the CLI: falsy input (absent or empty) becomes
`video_potong.mp4`, and a missing `.mp4` suffix is appended. -/
def cliFileName (f0 : Option String) : String :=
  let fn :=
    match f0 with
    | some s => if s = emptyStr then defaultCliName else s
    | none => defaultCliName
  if strEndsWith fn mp4Ext then fn else fn ++ mp4Ext

/-- The CLI `download` function after the start/end strings are resolved:
compute the duration with `timeToSeconds` and reject when `duration <= 0`
(false for NaN, as in JavaScript) before any `execSync` call. -/
def downloadCLI (startTime endTime : String) (f0 : Option String) : CLIOutcome :=
  match computeDuration startTime endTime with
  | some d =>
    if d ≤ 0 then CLIOutcome.rejectedDuration
    else CLIOutcome.launched (cliFileName f0) (some d)
  | none => CLIOutcome.launched (cliFileName f0) none

/-! ## Verification predicates and concrete runs used in the theorems -/

/-- Invariant of the download-stage handler state: `lastProgress` stays in
[5, 65], the emitted progress values form a non-decreasing sequence bounded
by 5 below and by the rounding of `lastProgress` above, and every emitted
event carries the `downloading` status. -/
def DLInv (st : DLState) : Prop :=
  5 ≤ st.lastProgress ∧ st.lastProgress ≤ 65 ∧
  List.Chain' (· ≤ ·) (st.events.map Event.progress) ∧
  (∀ x ∈ st.events.map Event.progress, 5 ≤ x ∧ x ≤ jsRound st.lastProgress) ∧
  (∀ e ∈ st.events, e.status = Status.downloading)

def idX1 : String := "task_10_a"
def outX1 : String := "out1.mp4"
def tX1 : TrimTask := ⟨idX1, mp4Str, outX1⟩
def trX1 : RunTrace := ⟨[], 1, [], [], 0, false⟩

def idC2 : String := "task_20_b"
def outC2 : String := "clip2.mp4"
def tC2 : TrimTask := ⟨idC2, mp4Str, outC2⟩
def trC2 : RunTrace := ⟨[], 0, [tempName tC2], [], 0, true⟩
def st0 : ServerState := ⟨[], [], []⟩
def stAfterRun : ServerState :=
  ((processVideo tC2 trC2).1).foldl (fun s e => sendProgress s idC2 e) st0
def stAfterSub : ServerState := subscribe stAfterRun idC2 0

def chunk50 : String := "[download]  50.0% of ~10MiB at 2MiB/s"
def st5 : DLState := ⟨5, []⟩

def urlW : String := "https://www.youtube.com/watch?v=dQw4w9WgXcQ"
def startW : String := "00:04:00"
def endW : String := "00:03:00"
def fnW : String := "clip"
def qualW : String := "720"
def reqW : TrimRequest := ⟨urlW, startW, endW, fnW, mp4Str, qualW⟩

def idX5 : String := "task_50_e"
def outX5 : String := "out5.mp4"
def tX5 : TrimTask := ⟨idX5, mp4Str, outX5⟩
def ffErrText : String := "Conversion failed: width not divisible by 2"
def trX5 : RunTrace := ⟨[], 0, [tempName tX5], [ffErrText], 1, false⟩
def dlErrChunk : String := "ERROR: unable to download video data"
def trX5b : RunTrace := ⟨[(Src.stderr, dlErrChunk)], 2, [], [], 0, false⟩

def idX6 : String := "task_60_f"
def outX6 : String := "out6.mp4"
def tX6 : TrimTask := ⟨idX6, mp4Str, outX6⟩
def ffChunkAct : String := "frame= 5 fps=0 time=00:00:02.00 bitrate=1000k"
def trX6 : RunTrace := ⟨[], 0, [tempName tX6], [ffChunkAct], 0, true⟩

def tEx1 : String := "00:03:01"
def tEx2 : String := "04:05"

def idX8 : String := "task_70_g"
def idB8 : String := "task_70_gh"
def outX8 : String := "out8.mp4"
def outB8 : String := "outB8.mp4"
def tX8 : TrimTask := ⟨idX8, mp4Str, outX8⟩
def tB8 : TrimTask := ⟨idB8, mp4Str, outB8⟩
def trX8 : RunTrace := ⟨[], 0, [tempName tX8, tempName tB8], [], 1, false⟩

def idX9 : String := "task_90_j"
def outX9 : String := "out9.mp4"
def tX9 : TrimTask := ⟨idX9, mp4Str, outX9⟩
def trX9 : RunTrace := ⟨[], 0, [tempName tX9], [], 0, true⟩
def trX9b : RunTrace := ⟨[], 0, [tempName tX9], [], 0, false⟩
def idW : String := "task_40_d"

/-! # Theorems -/

/-! ## Rounding and download-stage lemmas -/

theorem jsRound_mono {p q : ℚ} (h : p ≤ q) : jsRound p ≤ jsRound q :=
  Int.floor_le_floor (by linarith)

theorem jsRound_five : jsRound 5 = 5 := by norm_num [jsRound]

theorem jsRound_sixtyfive : jsRound 65 = 65 := by norm_num [jsRound]

theorem dlHandleChunk_some {st : DLState} {s : String} {p : ℚ}
    (hE : extractPercent s = some p) :
    dlHandleChunk st s =
      if st.lastProgress < scaleDL p then
        ⟨scaleDL p,
         st.events ++ [⟨Status.downloading, jsRound (scaleDL p), some (dlProgMsg p), none⟩]⟩
      else st := by
  unfold dlHandleChunk
  rw [hE]

theorem dlHandleChunk_none {st : DLState} {s : String}
    (hE : extractPercent s = none) : dlHandleChunk st s = st := by
  unfold dlHandleChunk
  rw [hE]

theorem dlHandleChunk_inv (st : DLState) (s : String) (h : DLInv st) :
    DLInv (dlHandleChunk st s) := by
  obtain ⟨h5, h65, hch, hbnd, hst⟩ := h
  cases hE : extractPercent s with
  | none => rw [dlHandleChunk_none hE]; exact ⟨h5, h65, hch, hbnd, hst⟩
  | some p =>
    rw [dlHandleChunk_some hE]
    by_cases hlt : st.lastProgress < scaleDL p
    · rw [if_pos hlt]
      have hsc5 : (5 : ℚ) ≤ scaleDL p := le_of_lt (lt_of_le_of_lt h5 hlt)
      have hsc65 : scaleDL p ≤ 65 := min_le_right _ _
      have hmono : jsRound st.lastProgress ≤ jsRound (scaleDL p) := jsRound_mono (le_of_lt hlt)
      have h5r : (5 : Int) ≤ jsRound (scaleDL p) := by
        have h' := jsRound_mono hsc5
        rwa [jsRound_five] at h'
      refine ⟨hsc5, hsc65, ?_, ?_, ?_⟩
      · rw [List.map_append]
        refine List.chain'_append.mpr ⟨hch, List.chain'_singleton _, ?_⟩
        intro x hx y hy
        simp only [List.map_cons, List.map_nil, List.head?_cons, Option.mem_def,
          Option.some.injEq] at hy
        subst hy
        exact le_trans (hbnd x (List.mem_of_mem_getLast? hx)).2 hmono
      · intro x hx
        rw [List.map_append] at hx
        rcases List.mem_append.mp hx with hx | hx
        · exact ⟨(hbnd x hx).1, le_trans (hbnd x hx).2 hmono⟩
        · simp only [List.map_cons, List.map_nil, List.mem_singleton] at hx
          subst hx
          exact ⟨h5r, le_refl _⟩
      · intro e he
        rcases List.mem_append.mp he with he | he
        · exact hst e he
        · simp only [List.mem_singleton] at he
          subst he
          rfl
    · rw [if_neg hlt]
      exact ⟨h5, h65, hch, hbnd, hst⟩

theorem dlRun_inv :
    ∀ (chunks : List (Src × String)) (st : DLState) (eo : String),
      DLInv st → DLInv (dlRun st eo chunks).1 := by
  intro chunks
  induction chunks with
  | nil => intro st eo h; exact h
  | cons c rest ih =>
    intro st eo h
    obtain ⟨src, s⟩ := c
    cases src <;> exact ih _ _ (dlHandleChunk_inv _ _ h)

theorem dlStage_inv (chunks : List (Src × String)) : DLInv (dlStage chunks).1 := by
  apply dlRun_inv
  refine ⟨by norm_num, by norm_num, ?_, ?_, ?_⟩ <;> simp

theorem dlRun_errOut :
    ∀ (chunks : List (Src × String)) (st : DLState) (eo : String),
      (dlRun st eo chunks).2 = eo ++ stderrConcat chunks := by
  intro chunks
  induction chunks with
  | nil =>
    intro st eo
    simp [dlRun, stderrConcat, emptyStr]
  | cons c rest ih =>
    intro st eo
    obtain ⟨src, s⟩ := c
    cases src with
    | stdout => simp [dlRun, stderrConcat, ih]
    | stderr => simp [dlRun, stderrConcat, ih, String.append_assoc]

theorem dlStage_errOut (chunks : List (Src × String)) :
    (dlStage chunks).2 = stderrConcat chunks := by
  unfold dlStage
  rw [dlRun_errOut]
  simp [emptyStr]

theorem dlStage_status (chunks : List (Src × String)) :
    ∀ e ∈ (dlStage chunks).1.events, e.status = Status.downloading :=
  (dlStage_inv chunks).2.2.2.2

theorem dlStage_progress_bounds (chunks : List (Src × String)) :
    ∀ e ∈ (dlStage chunks).1.events, 5 ≤ e.progress ∧ e.progress ≤ 65 := by
  intro e he
  obtain ⟨_, h65, _, hbnd, _⟩ := dlStage_inv chunks
  have hx := hbnd e.progress (List.mem_map_of_mem Event.progress he)
  refine ⟨hx.1, le_trans hx.2 ?_⟩
  have h' := jsRound_mono h65
  rwa [jsRound_sixtyfive] at h'

/-! ## Chain-assembly lemmas for the orchestrator's event sequence -/

theorem chain_le_snoc (l : List Int) (a : Int)
    (h : List.Chain' (· ≤ ·) l) (hb : ∀ x ∈ l, x ≤ a) :
    List.Chain' (· ≤ ·) (l ++ [a]) := by
  refine List.chain'_append.mpr ⟨h, List.chain'_singleton a, ?_⟩
  intro x hx y hy
  simp only [List.head?_cons, Option.mem_def, Option.some.injEq] at hy
  subst hy
  exact hb x (List.mem_of_mem_getLast? hx)

theorem ffEvents_mem (ch : List String) : ∀ e ∈ ffEvents ch, e = ev85 := by
  intro e he
  unfold ffEvents at he
  rcases List.mem_map.mp he with ⟨c, _, rfl⟩
  rfl

theorem ffEvents_map_progress (ch : List String) :
    (ffEvents ch).map Event.progress
      = List.replicate ((ch.filter (fun c => substrB timeKey c)).length) (85 : Int) := by
  unfold ffEvents
  rw [List.map_map]
  exact List.map_const' _ _

theorem coreEvents_chain (t : TrimTask) (tr : RunTrace) :
    List.Chain' (· ≤ ·) ((processCore t tr).events.map Event.progress) := by
  obtain ⟨h5, h65, hch, hbnd, hst⟩ := dlStage_inv tr.dlChunks
  have hb : ∀ x ∈ (dlStage tr.dlChunks).1.events.map Event.progress,
      (5:Int) ≤ x ∧ x ≤ 65 := by
    intro x hx
    refine ⟨(hbnd x hx).1, le_trans (hbnd x hx).2 ?_⟩
    have h' := jsRound_mono h65
    rwa [jsRound_sixtyfive] at h'
  have hR85 : ∀ x ∈ (ffEvents tr.ffChunks).map Event.progress, x = (85:Int) := by
    intro x hx
    rcases List.mem_map.mp hx with ⟨e, he, rfl⟩
    rw [ffEvents_mem tr.ffChunks e he]
    rfl
  have c1 : List.Chain' (· ≤ ·)
      ((5:Int) :: (dlStage tr.dlChunks).1.events.map Event.progress) := by
    refine List.chain'_cons'.mpr ⟨?_, hch⟩
    intro y hy
    exact (hb y (List.mem_of_mem_head? hy)).1
  have b1 : ∀ x ∈ (5:Int) :: (dlStage tr.dlChunks).1.events.map Event.progress,
      x ≤ (65:Int) := by
    intro x hx
    rcases List.mem_cons.mp hx with rfl | hx
    · norm_num
    · exact (hb x hx).2
  have c2 := chain_le_snoc _ 65 c1 b1
  have b2 : ∀ x ∈ ((5:Int) :: (dlStage tr.dlChunks).1.events.map Event.progress) ++ [65],
      x ≤ (65:Int) := by
    intro x hx
    rcases List.mem_append.mp hx with hx | hx
    · exact b1 x hx
    · simp only [List.mem_singleton] at hx
      subst hx
      exact le_refl _
  have cR : List.Chain' (· ≤ ·)
      ((70:Int) :: (ffEvents tr.ffChunks).map Event.progress) := by
    refine List.chain'_cons'.mpr ⟨?_, ?_⟩
    · intro y hy
      rw [hR85 y (List.mem_of_mem_head? hy)]
      norm_num
    · rw [ffEvents_map_progress]
      exact List.chain'_replicate_of_rel _ le_rfl
  have c3 : List.Chain' (· ≤ ·)
      ((((5:Int) :: (dlStage tr.dlChunks).1.events.map Event.progress) ++ [65]) ++
        ((70:Int) :: (ffEvents tr.ffChunks).map Event.progress)) := by
    refine List.chain'_append.mpr ⟨c2, cR, ?_⟩
    intro x hx y hy
    simp only [List.head?_cons, Option.mem_def, Option.some.injEq] at hy
    subst hy
    exact le_trans (b2 x (List.mem_of_mem_getLast? hx)) (by norm_num)
  have b3 : ∀ x ∈ (((5:Int) :: (dlStage tr.dlChunks).1.events.map Event.progress) ++ [65]) ++
      ((70:Int) :: (ffEvents tr.ffChunks).map Event.progress), x ≤ (96:Int) := by
    intro x hx
    rcases List.mem_append.mp hx with hx | hx
    · exact le_trans (b2 x hx) (by norm_num)
    · rcases List.mem_cons.mp hx with rfl | hx
      · norm_num
      · rw [hR85 x hx]
        norm_num
  have c4 := chain_le_snoc _ 96 c3 b3
  have b4 : ∀ x ∈ ((((5:Int) :: (dlStage tr.dlChunks).1.events.map Event.progress) ++ [65]) ++
      ((70:Int) :: (ffEvents tr.ffChunks).map Event.progress)) ++ [96], x ≤ (100:Int) := by
    intro x hx
    rcases List.mem_append.mp hx with hx | hx
    · exact le_trans (b3 x hx) (by norm_num)
    · simp only [List.mem_singleton] at hx
      subst hx
      norm_num
  have c5 := chain_le_snoc _ 100 c4 b4
  simp only [processCore]
  split_ifs with hdl hfind hff hdir
  · simpa only [List.map_append, List.map_cons, List.map_nil, ev5, ev65, ev70, ev96,
      evComplete] using c5
  · simpa only [List.map_append, List.map_cons, List.map_nil, ev5, ev65, ev70, ev96]
      using c4
  · simpa only [List.map_append, List.map_cons, List.map_nil, ev5, ev65, ev70] using c3
  · simpa only [List.map_append, List.map_cons, List.map_nil, ev5, ev65] using c2
  · simpa only [List.map_cons, ev5] using c1

theorem coreEvents_pred (t : TrimTask) (tr : RunTrace) (P : Event → Prop)
    (hP5 : P ev5) (hPdl : ∀ e ∈ (dlStage tr.dlChunks).1.events, P e)
    (hP65 : P ev65) (hP70 : P ev70) (hP85 : P ev85) (hP96 : P ev96)
    (hPc : P (evComplete t.outName)) :
    ∀ e ∈ (processCore t tr).events, P e := by
  have hPff : ∀ e ∈ ffEvents tr.ffChunks, P e := by
    intro e he
    rw [ffEvents_mem tr.ffChunks e he]
    exact hP85
  have b1 : ∀ e ∈ ev5 :: (dlStage tr.dlChunks).1.events, P e :=
    List.forall_mem_cons.mpr ⟨hP5, hPdl⟩
  have b2 : ∀ e ∈ (ev5 :: (dlStage tr.dlChunks).1.events) ++ [ev65], P e :=
    List.forall_mem_append.mpr ⟨b1, List.forall_mem_singleton.mpr hP65⟩
  have b3 : ∀ e ∈ ((ev5 :: (dlStage tr.dlChunks).1.events) ++ [ev65]) ++
      ev70 :: ffEvents tr.ffChunks, P e :=
    List.forall_mem_append.mpr ⟨b2, List.forall_mem_cons.mpr ⟨hP70, hPff⟩⟩
  have b4 : ∀ e ∈ (((ev5 :: (dlStage tr.dlChunks).1.events) ++ [ev65]) ++
      ev70 :: ffEvents tr.ffChunks) ++ [ev96], P e :=
    List.forall_mem_append.mpr ⟨b3, List.forall_mem_singleton.mpr hP96⟩
  have b5 : ∀ e ∈ ((((ev5 :: (dlStage tr.dlChunks).1.events) ++ [ev65]) ++
      ev70 :: ffEvents tr.ffChunks) ++ [ev96]) ++ [evComplete t.outName], P e :=
    List.forall_mem_append.mpr ⟨b4, List.forall_mem_singleton.mpr hPc⟩
  simp only [processCore]
  split_ifs
  · exact b5
  · exact b4
  · exact b3
  · exact b2
  · exact b1

theorem coreEvents_ne_error (t : TrimTask) (tr : RunTrace) :
    ∀ e ∈ (processCore t tr).events, e.status ≠ Status.error := by
  refine coreEvents_pred t tr _ (by decide) ?_ (by decide) (by decide) (by decide)
    (by decide) (by intro h; simp [evComplete] at h)
  intro e he
  rw [dlStage_status tr.dlChunks e he]
  decide

/-- C1 (counterexample): a task whose download stage exits non-zero right
after the initial `downloading`/5 event ends with the terminal error event,
which reports progress 0; the full emitted sequence 5, 0 is decreasing, so
the progress values are not non-decreasing through a terminal `error`
event. -/
theorem c1_counterexample :
    ¬ List.Chain' (· ≤ ·) (((processVideo tX1 trX1).1).map Event.progress) := by
  have h : (processVideo tX1 trX1).1.map Event.progress = [5, 0] := by decide
  rw [h]
  intro hc
  have h50 := (List.chain'_cons.mp hc).1
  norm_num at h50

/-- C1 (amended): for every accepted task and every interleaving of stage
output chunks — including duplicate or out-of-order raw percentage tokens —
the progress values of all events emitted via sendProgress are
non-decreasing from the first `downloading` event up to, but not including,
a terminal `error` event (the terminal error event always reports 0); in
particular a task that ends with `complete` has a fully non-decreasing
sequence. -/
theorem c1_progress_nondecreasing_outside_error :
    ∀ (t : TrimTask) (tr : RunTrace),
      List.Chain' (· ≤ ·)
        ((((processVideo t tr).1).filter
            (fun e => decide (e.status ≠ Status.error))).map Event.progress) := by
  intro t tr
  have hfilter : ((processCore t tr).events).filter
      (fun e => decide (e.status ≠ Status.error)) = (processCore t tr).events :=
    List.filter_eq_self.mpr (fun e he => by simpa using coreEvents_ne_error t tr e he)
  simp only [processVideo]
  rcases hE : (processCore t tr).err with _ | m
  · show List.Chain' (· ≤ ·)
        ((((processCore t tr).events).filter
          (fun e => decide (e.status ≠ Status.error))).map Event.progress)
    rw [hfilter]
    exact coreEvents_chain t tr
  · show List.Chain' (· ≤ ·)
        (((((processCore t tr).events) ++ [evError m]).filter
          (fun e => decide (e.status ≠ Status.error))).map Event.progress)
    have herr : List.filter (fun e => decide (e.status ≠ Status.error)) [evError m] = [] := by
      simp [evError]
    rw [List.filter_append, hfilter, herr, List.append_nil]
    exact coreEvents_chain t tr

/-! ## Time-parsing lemmas (C7) -/

theorem sumSegs_allParse :
    ∀ (l : List String) (vs : List Nat) (m : Int),
      allParse l = some vs → sumSegs l m = some (m * revSum vs) := by
  intro l
  induction l with
  | nil =>
    intro vs m h
    simp only [allParse, Option.some.injEq] at h
    subst h
    simp [sumSegs, revSum]
  | cons p rest ih =>
    intro vs m h
    simp only [allParse] at h
    cases hp : parseIntOpt p with
    | none => rw [hp] at h; exact absurd h (by simp)
    | some v =>
      rw [hp] at h
      cases ha : allParse rest with
      | none => rw [ha] at h; exact absurd h (by simp)
      | some vs' =>
        rw [ha] at h
        simp only [Option.some.injEq] at h
        subst h
        simp only [sumSegs, hp, ih vs' (m * 60) ha, revSum]
        congr 1
        ring

theorem allParse_append :
    ∀ (l1 l2 : List String) (vs1 vs2 : List Nat),
      allParse l1 = some vs1 → allParse l2 = some vs2 →
      allParse (l1 ++ l2) = some (vs1 ++ vs2) := by
  intro l1
  induction l1 with
  | nil =>
    intro l2 vs1 vs2 h1 h2
    simp only [allParse, Option.some.injEq] at h1
    subst h1
    simpa using h2
  | cons p rest ih =>
    intro l2 vs1 vs2 h1 h2
    simp only [allParse] at h1
    cases hp : parseIntOpt p with
    | none => rw [hp] at h1; exact absurd h1 (by simp)
    | some v =>
      rw [hp] at h1
      cases ha : allParse rest with
      | none => rw [ha] at h1; exact absurd h1 (by simp)
      | some vs' =>
        rw [ha] at h1
        simp only [Option.some.injEq] at h1
        subst h1
        simp only [List.cons_append, allParse, List.append_eq, hp, ih l2 vs' vs2 ha h2]

theorem allParse_reverse :
    ∀ (l : List String) (vs : List Nat),
      allParse l = some vs → allParse l.reverse = some vs.reverse := by
  intro l
  induction l with
  | nil =>
    intro vs h
    simp only [allParse, Option.some.injEq] at h
    subst h
    rfl
  | cons p rest ih =>
    intro vs h
    simp only [allParse] at h
    cases hp : parseIntOpt p with
    | none => rw [hp] at h; exact absurd h (by simp)
    | some v =>
      rw [hp] at h
      cases ha : allParse rest with
      | none => rw [ha] at h; exact absurd h (by simp)
      | some vs' =>
        rw [ha] at h
        simp only [Option.some.injEq] at h
        subst h
        simp only [List.reverse_cons]
        rw [allParse_append rest.reverse [p] vs'.reverse [v] (ih vs' ha)
          (by simp [allParse, hp])]

theorem revSum_append_single (xs : List Nat) (v : Nat) :
    revSum (xs ++ [v]) = revSum xs + (v : Int) * 60 ^ xs.length := by
  induction xs with
  | nil => simp [revSum]
  | cons x rest ih =>
    simp only [List.cons_append, List.append_eq, revSum, ih, List.length_cons]
    ring

theorem revSum_reverse (vs : List Nat) : revSum vs.reverse = weightedSum vs := by
  induction vs with
  | nil => rfl
  | cons v rest ih =>
    simp only [List.reverse_cons, revSum_append_single, ih, weightedSum,
      List.length_reverse]
    ring

/-- C7: parseTimeToSeconds splits on `:` and folds the segments right-to-left
with multipliers 1, 60, 3600, …: for every non-empty input whose segments all
parse, the result is the weighted sum of the segments (most significant
first); concretely "00:03:01" gives 181 and "04:05" gives 245, and the empty
input gives 0. -/
theorem c7_timeToSeconds_fold :
    timeToSeconds emptyStr = some 0 ∧
    timeToSeconds tEx1 = some 181 ∧
    timeToSeconds tEx2 = some 245 ∧
    (∀ (s : String) (vs : List Nat), s ≠ emptyStr →
      allParse (strSplitOn s ':') = some vs →
      timeToSeconds s = some (weightedSum vs)) := by
  refine ⟨by decide, by decide, by decide, ?_⟩
  intro s vs hne hall
  unfold timeToSeconds
  rw [if_neg hne, sumSegs_allParse (strSplitOn s ':').reverse vs.reverse 1
    (allParse_reverse _ _ hall), revSum_reverse]
  simp

/-- C7 witness: the general fold law applied to the concrete input "04:05",
whose segments parse to 4 and 5; the weighted sum 4 * 60 + 5 = 245 is
returned. -/
theorem c7_witness :
    timeToSeconds tEx2 = some (weightedSum [4, 5]) ∧ weightedSum [4, 5] = 245 :=
  ⟨c7_timeToSeconds_fold.2.2.2 tEx2 [4, 5] (by decide) (by decide), by decide⟩


/-! ## Progress-bus lemmas -/

theorem getW_setW (w : List (Nat × List Event)) (k : Nat) (v : List Event) :
    getW (setW w k v) k = v := by
  simp [getW, setW]

theorem getS_setS (l : List (String × Nat)) (k : String) (v : Nat) :
    getS (setS l k v) k = some v := by
  simp [getS, setS]

/-! ## Branch characterisations of the orchestrator -/

theorem processVideo_of_err {t : TrimTask} {tr : RunTrace} {m : String}
    (h : (processCore t tr).err = some m) :
    processVideo t tr = ((processCore t tr).events ++ [evError m],
      errorCleanup t.taskId (tempName t) (processCore t tr).dir) := by
  unfold processVideo
  rcases hpc : processCore t tr with ⟨evs, erro, dirr⟩
  rw [hpc] at h
  have h2 : erro = some m := h
  subst h2
  rfl

theorem processVideo_of_ok {t : TrimTask} {tr : RunTrace}
    (h : (processCore t tr).err = none) :
    processVideo t tr = ((processCore t tr).events, (processCore t tr).dir) := by
  unfold processVideo
  rcases hpc : processCore t tr with ⟨evs, erro, dirr⟩
  rw [hpc] at h
  have h2 : erro = none := h
  subst h2
  rfl

theorem processCore_dlFail {t : TrimTask} {tr : RunTrace} (h : ¬ tr.dlExit = 0) :
    processCore t tr = ⟨ev5 :: (dlStage tr.dlChunks).1.events,
      some (dlFailMsg tr.dlExit (dlStage tr.dlChunks).2), tr.dir⟩ := by
  simp only [processCore]
  rw [if_neg h]

theorem processCore_findFail {t : TrimTask} {tr : RunTrace} (h0 : tr.dlExit = 0)
    (h1 : findDownloadedFile tr.dir (tempName t) ∉ tr.dir) :
    processCore t tr = ⟨(ev5 :: (dlStage tr.dlChunks).1.events) ++ [ev65],
      some msgNoDownload, tr.dir⟩ := by
  simp only [processCore]
  rw [if_pos h0, if_neg h1]

theorem processCore_ffFail {t : TrimTask} {tr : RunTrace} (h0 : tr.dlExit = 0)
    (h1 : findDownloadedFile tr.dir (tempName t) ∈ tr.dir) (h2 : ¬ tr.ffExit = 0) :
    processCore t tr = ⟨((ev5 :: (dlStage tr.dlChunks).1.events) ++ [ev65]) ++
        ev70 :: ffEvents tr.ffChunks,
      some (ffFailMsg tr.ffExit), dirAtCut t tr⟩ := by
  simp only [processCore]
  rw [if_pos h0, if_pos h1, if_neg h2]

theorem processCore_noResult {t : TrimTask} {tr : RunTrace} (h0 : tr.dlExit = 0)
    (h1 : findDownloadedFile tr.dir (tempName t) ∈ tr.dir) (h2 : tr.ffExit = 0)
    (h3 : t.outName ∉ successCleanup t.taskId (tempName t) t.outName (dirAtCut t tr)) :
    processCore t tr = ⟨(((ev5 :: (dlStage tr.dlChunks).1.events) ++ [ev65]) ++
        ev70 :: ffEvents tr.ffChunks) ++ [ev96],
      some msgNoResult,
      successCleanup t.taskId (tempName t) t.outName (dirAtCut t tr)⟩ := by
  simp only [processCore]
  rw [if_pos h0, if_pos h1, if_pos h2, if_neg h3]

theorem processCore_success {t : TrimTask} {tr : RunTrace} (h0 : tr.dlExit = 0)
    (h1 : findDownloadedFile tr.dir (tempName t) ∈ tr.dir) (h2 : tr.ffExit = 0)
    (h3 : t.outName ∈ successCleanup t.taskId (tempName t) t.outName (dirAtCut t tr)) :
    processCore t tr = ⟨((((ev5 :: (dlStage tr.dlChunks).1.events) ++ [ev65]) ++
        ev70 :: ffEvents tr.ffChunks) ++ [ev96]) ++ [evComplete t.outName],
      none,
      successCleanup t.taskId (tempName t) t.outName (dirAtCut t tr)⟩ := by
  simp only [processCore]
  rw [if_pos h0, if_pos h1, if_pos h2, if_pos h3]

/-- C2 (counterexample): drive a task to terminal completion with no
subscriber attached (so the snapshot {status:'complete', progress:100,
filename:'clip2.mp4'} is stored in taskProgress), then subscribe; the new
subscriber receives only the fixed {status:'connected', progress:0} event —
the stored terminal snapshot is never delivered. -/
theorem c2_counterexample :
    getT stAfterRun.taskProgress idC2 = some (evComplete outC2) ∧
    getT stAfterSub.taskProgress idC2 = some (evComplete outC2) ∧
    getW stAfterSub.written 0 = [connectedEvent] ∧
    evComplete outC2 ∉ getW stAfterSub.written 0 := by
  refine ⟨by decide, by decide, by decide, by decide⟩

/-- C2 (amended): a new subscription to any task — terminal or not —
delivers exactly the fixed {status:'connected', progress:0} event and leaves
the stored taskProgress snapshots untouched: the handler never reads
taskProgress, so events published before a subscriber attaches are not
replayed at all, not even the latest snapshot. -/
theorem c2_subscribe_delivers_only_connected :
    ∀ (st : ServerState) (tid : String) (sink : Nat),
      getW (subscribe st tid sink).written sink
        = getW st.written sink ++ [connectedEvent] ∧
      (subscribe st tid sink).taskProgress = st.taskProgress := by
  intro st tid sink
  exact ⟨by simp [subscribe, getW_setW], rfl⟩

/-- C10: every new subscription first receives {status:'connected',
progress:0} regardless of the server state, registers itself as the task's
sink (replacing any previous one), and any event published afterwards for
that task reaches the sink after the connected event. -/
theorem c10_subscribe_connected_first :
    ∀ (st : ServerState) (tid : String) (sink : Nat) (e : Event),
      getW (subscribe st tid sink).written sink
        = getW st.written sink ++ [connectedEvent] ∧
      getS (subscribe st tid sink).progressStreams tid = some sink ∧
      getW (sendProgress (subscribe st tid sink) tid e).written sink
        = getW st.written sink ++ [connectedEvent, e] := by
  intro st tid sink e
  refine ⟨by simp [subscribe, getW_setW], by simp [subscribe, getS_setS], ?_⟩
  simp [sendProgress, subscribe, getS_setS, getW_setW]

/-! ## Download scaling (C3) -/

theorem extract_chunk50 : extractPercent chunk50 = some 50 := by
  have h : extractPercentAux chunk50.toList = some (['5', '0'], ['0']) := by decide
  rw [extractPercent, h, Option.map_some']
  norm_num [tokVal, (by decide : digitsToNat ['5', '0'] = 50),
    (by decide : digitsToNat ['0'] = 0)]

theorem st5_lt_scale50 : st5.lastProgress < scaleDL 50 := by
  norm_num [st5, scaleDL]

/-- C3: during downloading, an extracted raw percentage p is scaled to
min(5 + p * 0.6, 65), so p = 0 maps to 5, p = 50 to 35 and p = 100 to 65;
the scaled value is forwarded (as a new progress event, rounded) exactly
when it strictly exceeds the task's record of the last reported percent
(the handler state's lastProgress), and the handler changes nothing
otherwise. -/
theorem c3_download_scaling_forward :
    scaleDL 0 = 5 ∧ scaleDL 50 = 35 ∧ scaleDL 100 = 65 ∧
    (∀ (st : DLState) (s : String) (p : ℚ), extractPercent s = some p →
      st.lastProgress < scaleDL p →
      dlHandleChunk st s = ⟨scaleDL p, st.events ++
        [⟨Status.downloading, jsRound (scaleDL p), some (dlProgMsg p), none⟩]⟩) ∧
    (∀ (st : DLState) (s : String) (p : ℚ), extractPercent s = some p →
      ¬ st.lastProgress < scaleDL p → dlHandleChunk st s = st) ∧
    (∀ (st : DLState) (s : String), dlHandleChunk st s ≠ st →
      ∃ p, extractPercent s = some p ∧ st.lastProgress < scaleDL p) := by
  refine ⟨by norm_num [scaleDL], by norm_num [scaleDL], by norm_num [scaleDL],
    ?_, ?_, ?_⟩
  · intro st s p hE hlt
    rw [dlHandleChunk_some hE, if_pos hlt]
  · intro st s p hE hlt
    rw [dlHandleChunk_some hE, if_neg hlt]
  · intro st s hne
    cases hE : extractPercent s with
    | none => exact absurd (dlHandleChunk_none hE) hne
    | some p =>
      by_cases hlt : st.lastProgress < scaleDL p
      · exact ⟨p, rfl, hlt⟩
      · rw [dlHandleChunk_some hE, if_neg hlt] at hne
        exact absurd rfl hne

/-- C3 witness: on the chunk "[download]  50.0% of ~10MiB at 2MiB/s" with
lastProgress 5, the handler forwards one downloading event whose scaled
value is scaleDL 50 = 35. -/
theorem c3_witness :
    dlHandleChunk st5 chunk50 = ⟨scaleDL 50, [⟨Status.downloading,
      jsRound (scaleDL 50), some (dlProgMsg 50), none⟩]⟩ ∧
    scaleDL 50 = 35 := by
  have h := c3_download_scaling_forward.2.2.2.1 st5 chunk50 50 extract_chunk50 st5_lt_scale50
  refine ⟨?_, c3_download_scaling_forward.2.1⟩
  rw [h]
  rfl

/-- C4: a request whose computed duration parseTimeToSeconds(end) -
parseTimeToSeconds(start) is ≤ 0 is rejected before any subprocess is
launched, on both paths: the POST /trim handler answers 400 and never hands
a task to processVideo (validation, modelled from the spec, requires a
strictly positive duration), and the CLI download function returns the
duration-validation rejection before any execSync call. -/
theorem c4_nonpositive_duration_rejected :
    (∀ (tid : String) (r : TrimRequest) (d : Int),
      computeDuration r.start r.endT = some d → d ≤ 0 → trimHandler tid r = none) ∧
    (∀ (s e : String) (f0 : Option String) (d : Int),
      computeDuration s e = some d → d ≤ 0 →
      downloadCLI s e f0 = CLIOutcome.rejectedDuration) := by
  constructor
  · intro tid r d hd hle
    have hv : validateTrimRequest r = false := by
      unfold validateTrimRequest
      rw [hd]
      simp [decide_eq_false (not_lt.mpr hle)]
    simp [trimHandler, hv]
  · intro s e f0 d hd hle
    unfold downloadCLI
    rw [hd]
    simp [hle]

/-- C4 witness: start 00:04:00 and end 00:03:00 give duration -60; the
server handler rejects the request and the CLI path rejects before any
subprocess. -/
theorem c4_witness :
    trimHandler idW reqW = none ∧
    downloadCLI startW endW none = CLIOutcome.rejectedDuration :=
  ⟨c4_nonpositive_duration_rejected.1 idW reqW (-60) (by decide) (by decide),
   c4_nonpositive_duration_rejected.2 startW endW none (-60) (by decide) (by decide)⟩

/-- C5 (counterexample): a cut stage that exits 1 after emitting the stderr
text "Conversion failed: width not divisible by 2" terminates the task with
the error message "Error: ffmpeg exited with code 1" — the message carries
the exit code but no portion of the captured stderr text at all, refuting
that a failing stage's error carries the last portion of its stderr. -/
theorem c5_counterexample :
    trX5.ffExit = 1 ∧ trX5.ffChunks = [ffErrText] ∧
    (processVideo tX5 trX5).1.getLast? = some (evError (ffFailMsg 1)) ∧
    substrB ffErrText (msgErrPre ++ ffFailMsg 1) = false := by
  refine ⟨by decide, by decide, by decide, by decide⟩

/-- C5 (amended): the captured error text is the concatenation of the
stderr chunks in arrival order; a download stage exiting non-zero fails the
task with an error carrying the exit code and the FIRST 200 characters of
that text (substring(0, 200), a prefix, not the last portion), while a cut
stage exiting non-zero fails the task with an error carrying only the exit
code and no stderr text. -/
theorem c5_stage_failure_messages :
    (∀ (ch : List (Src × String)), (dlStage ch).2 = stderrConcat ch) ∧
    (∀ (t : TrimTask) (tr : RunTrace), ¬ tr.dlExit = 0 →
      (processVideo t tr).1.getLast?
        = some (evError (dlFail1 ++ toString tr.dlExit ++ dlFail2 ++
            (stderrConcat tr.dlChunks).take 200))) ∧
    (∀ (t : TrimTask) (tr : RunTrace), tr.dlExit = 0 →
      findDownloadedFile tr.dir (tempName t) ∈ tr.dir → ¬ tr.ffExit = 0 →
      (processVideo t tr).1.getLast?
        = some (evError (ffFail1 ++ toString tr.ffExit))) := by
  refine ⟨dlStage_errOut, ?_, ?_⟩
  · intro t tr hdl
    have hcore := processCore_dlFail (t := t) hdl
    have herr : (processCore t tr).err
        = some (dlFailMsg tr.dlExit (dlStage tr.dlChunks).2) := by
      rw [hcore]
    rw [processVideo_of_err herr]
    simp only [List.getLast?_concat]
    rw [dlFailMsg, dlStage_errOut]
  · intro t tr h0 h1 h2
    have herr : (processCore t tr).err = some (ffFailMsg tr.ffExit) := by
      rw [processCore_ffFail h0 h1 h2]
    rw [processVideo_of_err herr]
    simp only [List.getLast?_concat]
    rw [ffFailMsg]

/-- C5 witness: a download failure with exit code 2 carries the first 200
characters of the accumulated stderr, and a cut failure with exit code 1
carries only the exit code. -/
theorem c5_witness :
    (processVideo tX5 trX5b).1.getLast?
      = some (evError (dlFail1 ++ toString trX5b.dlExit ++ dlFail2 ++
          (stderrConcat trX5b.dlChunks).take 200)) ∧
    (processVideo tX5 trX5).1.getLast?
      = some (evError (ffFail1 ++ toString trX5.ffExit)) :=
  ⟨c5_stage_failure_messages.2.1 tX5 trX5b (by decide),
   c5_stage_failure_messages.2.2 tX5 trX5 (by decide) (by decide) (by decide)⟩

/-! ## Trimming-stage progress (C6) -/

theorem processVideo_no95 (t : TrimTask) (tr : RunTrace) :
    ∀ e ∈ (processVideo t tr).1, e.progress ≠ 95 := by
  have hcore : ∀ e ∈ (processCore t tr).events, e.progress ≠ 95 := by
    refine coreEvents_pred t tr _ (by decide) ?_ (by decide) (by decide) (by decide)
      (by decide) (by simp [evComplete])
    intro e he
    have hb := dlStage_progress_bounds tr.dlChunks e he
    omega
  rcases hE : (processCore t tr).err with _ | m
  · rw [processVideo_of_ok hE]
    exact hcore
  · rw [processVideo_of_err hE]
    intro e he
    rcases List.mem_append.mp he with he | he
    · exact hcore e he
    · simp only [List.mem_singleton] at he
      subst he
      simp [evError]

/-- C6 (counterexample): on a run whose cut stage succeeds (ffmpeg exit 0),
the emitted progress sequence is 5, 65, 70, 85, 96, 100 — after the fixed
85% trimming activity event the task moves directly to `cleaning` at 96; no
event with progress 95 is ever emitted, refuting "then 95 when the cut
stage succeeds". -/
theorem c6_counterexample :
    trX6.ffExit = 0 ∧
    (processVideo tX6 trX6).1.map Event.progress = [5, 65, 70, 85, 96, 100] ∧
    ∀ e ∈ (processVideo tX6 trX6).1, e.progress ≠ 95 := by
  refine ⟨by decide, by decide, by decide⟩

/-- C6 (amended): once the download stage has finished and the file is
resolved, the trimming-status events are exactly one 70% entry event
followed by one fixed 85% event per cutter stderr chunk containing "time="
(all within the 70-95 range); no event of the run reports 95, and when the
cut stage exits 0 the task continues with the `cleaning` event at 96. -/
theorem c6_trimming_fixed_midpoint :
    ∀ (t : TrimTask) (tr : RunTrace), tr.dlExit = 0 →
      findDownloadedFile tr.dir (tempName t) ∈ tr.dir →
      ((((processVideo t tr).1).filter
          (fun e => decide (e.status = Status.trimming))).map Event.progress
        = 70 :: List.replicate
            ((tr.ffChunks.filter (fun c => substrB timeKey c)).length) (85 : Int)) ∧
      (∀ e ∈ (processVideo t tr).1, e.progress ≠ 95) ∧
      (tr.ffExit = 0 → ev96 ∈ (processVideo t tr).1) := by
  intro t tr h0 h1
  have hdlnil : List.filter (fun e => decide (e.status = Status.trimming))
      (dlStage tr.dlChunks).1.events = [] := by
    rw [List.filter_eq_nil_iff]
    intro e he
    simp [dlStage_status tr.dlChunks e he]
  have hffself : List.filter (fun e => decide (e.status = Status.trimming))
      (ffEvents tr.ffChunks) = ffEvents tr.ffChunks :=
    List.filter_eq_self.mpr (fun e he => by simp [ffEvents_mem tr.ffChunks e he, ev85])
  refine ⟨?_, processVideo_no95 t tr, ?_⟩
  · by_cases h2 : tr.ffExit = 0
    · by_cases h3 : t.outName ∈ successCleanup t.taskId (tempName t) t.outName (dirAtCut t tr)
      · have hev : (processCore t tr).events
            = ((((ev5 :: (dlStage tr.dlChunks).1.events) ++ [ev65]) ++
              ev70 :: ffEvents tr.ffChunks) ++ [ev96]) ++ [evComplete t.outName] := by
          rw [processCore_success h0 h1 h2 h3]
        rw [processVideo_of_ok (by rw [processCore_success h0 h1 h2 h3]), hev]
        simp only [List.filter_append, List.filter_cons, List.filter_nil, hdlnil, hffself,
          ev5, ev65, ev70, ev96, evComplete]
        simp [ffEvents_map_progress]
      · have hev : (processCore t tr).events
            = (((ev5 :: (dlStage tr.dlChunks).1.events) ++ [ev65]) ++
              ev70 :: ffEvents tr.ffChunks) ++ [ev96] := by
          rw [processCore_noResult h0 h1 h2 h3]
        rw [processVideo_of_err (by rw [processCore_noResult h0 h1 h2 h3]), hev]
        simp only [List.filter_append, List.filter_cons, List.filter_nil, hdlnil, hffself,
          ev5, ev65, ev70, ev96, evError]
        simp [ffEvents_map_progress]
    · have hev : (processCore t tr).events
          = ((ev5 :: (dlStage tr.dlChunks).1.events) ++ [ev65]) ++
            ev70 :: ffEvents tr.ffChunks := by
        rw [processCore_ffFail h0 h1 h2]
      rw [processVideo_of_err (by rw [processCore_ffFail h0 h1 h2]), hev]
      simp only [List.filter_append, List.filter_cons, List.filter_nil, hdlnil, hffself,
        ev5, ev65, ev70, evError]
      simp [ffEvents_map_progress]
  · intro h2
    by_cases h3 : t.outName ∈ successCleanup t.taskId (tempName t) t.outName (dirAtCut t tr)
    · rw [processVideo_of_ok (by rw [processCore_success h0 h1 h2 h3])]
      rw [show (processCore t tr).events
          = ((((ev5 :: (dlStage tr.dlChunks).1.events) ++ [ev65]) ++
            ev70 :: ffEvents tr.ffChunks) ++ [ev96]) ++ [evComplete t.outName] from by
          rw [processCore_success h0 h1 h2 h3]]
      simp
    · rw [processVideo_of_err (by rw [processCore_noResult h0 h1 h2 h3])]
      rw [show (processCore t tr).events
          = (((ev5 :: (dlStage tr.dlChunks).1.events) ++ [ev65]) ++
            ev70 :: ffEvents tr.ffChunks) ++ [ev96] from by
          rw [processCore_noResult h0 h1 h2 h3]]
      simp

/-- C6 witness: a run with one "time="-containing cutter chunk whose cut
stage exits 0 yields trimming events 70, 85 and then the cleaning event at
96. -/
theorem c6_witness :
    (((processVideo tX6 trX6).1).filter
        (fun e => decide (e.status = Status.trimming))).map Event.progress
      = 70 :: List.replicate
          ((trX6.ffChunks.filter (fun c => substrB timeKey c)).length) (85 : Int) ∧
    ev96 ∈ (processVideo tX6 trX6).1 :=
  ⟨(c6_trimming_fixed_midpoint tX6 trX6 (by decide) (by decide)).1,
   (c6_trimming_fixed_midpoint tX6 trX6 (by decide) (by decide)).2.2 (by decide)⟩

/-! ## Error-path cleanup scoping (C8) -/

/-- C8 (counterexample): two concurrently possible task ids task_70_g and
task_70_gh are distinct, yet when the first task's cut stage exits non-zero
its error-path cleanup also deletes the second task's temp artifact
temp_task_70_gh.mp4 (whose name starts with the first task's temp base
name), so a temp artifact scoped to a different task id is not left
untouched. -/
theorem c8_counterexample :
    idX8 ≠ idB8 ∧
    tempName tB8 = tempPre ++ idB8 ++ dotStr ++ mp4Str ∧
    tempName tB8 ∈ trX8.dir ∧
    (processVideo tX8 trX8).1.getLast? = some (evError (ffFailMsg 1)) ∧
    tempName tB8 ∉ (processVideo tX8 trX8).2 := by
  refine ⟨by decide, by decide, by decide, by decide, by decide⟩

/-- C8 (amended): when a task's cut stage exits non-zero the task reaches
the terminal error event and the error-path cleanup removes every file
whose name contains the task id; a file is left untouched precisely when
its name neither contains the task id nor starts with the task's temp base
name — which holds for other tasks' artifacts unless one task's id is a
prefix of the other's (distinct ids alone are not enough, as
c8_counterexample shows). -/
theorem c8_error_cleanup_scoped :
    ∀ (t : TrimTask) (tr : RunTrace), tr.dlExit = 0 →
      findDownloadedFile tr.dir (tempName t) ∈ tr.dir → ¬ tr.ffExit = 0 →
      (processVideo t tr).1.getLast? = some (evError (ffFailMsg tr.ffExit)) ∧
      (∀ f, substrB t.taskId f = true → f ∉ (processVideo t tr).2) ∧
      (∀ f ∈ dirAtCut t tr, substrB t.taskId f = false →
        strStartsWith f (baseNameSuf (tempName t) mp4Ext) = false →
        f ∈ (processVideo t tr).2) := by
  intro t tr h0 h1 h2
  have herr : (processCore t tr).err = some (ffFailMsg tr.ffExit) := by
    rw [processCore_ffFail h0 h1 h2]
  have hdir : (processCore t tr).dir = dirAtCut t tr := by
    rw [processCore_ffFail h0 h1 h2]
  rw [processVideo_of_err herr, hdir]
  refine ⟨List.getLast?_concat _, ?_, ?_⟩
  · intro f hsub hmem
    have hp := (List.mem_filter.mp hmem).2
    simp only [hsub, Bool.true_or, Bool.not_true] at hp
    exact absurd hp (by simp)
  · intro f hmem hsub hpre
    refine List.mem_filter.mpr ⟨hmem, ?_⟩
    simp [errorCleanup] at hsub hpre ⊢
    simp [hsub, hpre]

/-- C8 witness: on a concrete failed cut, the task ends with the error
event and its own temp artifact (whose name contains the task id) is
gone from the directory. -/
theorem c8_witness :
    (processVideo tX8 trX8).1.getLast? = some (evError (ffFailMsg trX8.ffExit)) ∧
    tempName tX8 ∉ (processVideo tX8 trX8).2 :=
  ⟨(c8_error_cleanup_scoped tX8 trX8 (by decide) (by decide) (by decide)).1,
   (c8_error_cleanup_scoped tX8 trX8 (by decide) (by decide) (by decide)).2.1
     (tempName tX8) (by decide)⟩

/-! ## Terminal complete only after artifact verification (C9) -/

theorem evs4_no_complete (t : TrimTask) (tr : RunTrace) :
    evComplete t.outName ∉ (((ev5 :: (dlStage tr.dlChunks).1.events) ++ [ev65]) ++
      ev70 :: ffEvents tr.ffChunks) ++ [ev96] := by
  intro hmem
  rcases List.mem_append.mp hmem with h | h
  · rcases List.mem_append.mp h with h | h
    · rcases List.mem_append.mp h with h | h
      · rcases List.mem_cons.mp h with h | h
        · simp [evComplete, ev5] at h
        · have hs := dlStage_status tr.dlChunks _ h
          simp [evComplete] at hs
      · simp [evComplete, ev65] at h
    · rcases List.mem_cons.mp h with h | h
      · simp [evComplete, ev70] at h
      · have h85 := ffEvents_mem tr.ffChunks _ h
        simp [evComplete, ev85] at h85
  · simp [evComplete, ev96] at h

/-- C9: a terminal complete event (progress 100, carrying the output file
name) is emitted only on the success path, where the final artifact has
been verified present — whenever the complete event is among the emitted
events, the final file name is in the resulting directory and the complete
event is the last event; and if the cut stage succeeded but the expected
final file is absent after cleanup, the task instead ends with the
terminal error event "Error: File hasil trim tidak ditemukan" and the
task-scoped error cleanup runs on the directory. -/
theorem c9_complete_only_with_artifact :
    ∀ (t : TrimTask) (tr : RunTrace),
      (evComplete t.outName ∈ (processVideo t tr).1 →
        t.outName ∈ (processVideo t tr).2 ∧
        (processVideo t tr).1.getLast? = some (evComplete t.outName)) ∧
      (tr.dlExit = 0 → findDownloadedFile tr.dir (tempName t) ∈ tr.dir →
        tr.ffExit = 0 →
        t.outName ∉ successCleanup t.taskId (tempName t) t.outName (dirAtCut t tr) →
        (processVideo t tr).1.getLast? = some (evError msgNoResult) ∧
        (processVideo t tr).2 = errorCleanup t.taskId (tempName t)
          (successCleanup t.taskId (tempName t) t.outName (dirAtCut t tr))) := by
  intro t tr
  constructor
  · intro hmem
    by_cases h0 : tr.dlExit = 0
    · by_cases h1 : findDownloadedFile tr.dir (tempName t) ∈ tr.dir
      · by_cases h2 : tr.ffExit = 0
        · by_cases h3 : t.outName ∈
              successCleanup t.taskId (tempName t) t.outName (dirAtCut t tr)
          · rw [processVideo_of_ok (by rw [processCore_success h0 h1 h2 h3])]
            constructor
            · rw [show (processCore t tr).dir
                  = successCleanup t.taskId (tempName t) t.outName (dirAtCut t tr) from by
                rw [processCore_success h0 h1 h2 h3]]
              exact h3
            · rw [show (processCore t tr).events
                  = ((((ev5 :: (dlStage tr.dlChunks).1.events) ++ [ev65]) ++
                    ev70 :: ffEvents tr.ffChunks) ++ [ev96]) ++ [evComplete t.outName] from by
                rw [processCore_success h0 h1 h2 h3]]
              exact List.getLast?_concat _
          · exfalso
            rw [processVideo_of_err (by rw [processCore_noResult h0 h1 h2 h3]),
              show (processCore t tr).events
                = (((ev5 :: (dlStage tr.dlChunks).1.events) ++ [ev65]) ++
                  ev70 :: ffEvents tr.ffChunks) ++ [ev96] from by
                rw [processCore_noResult h0 h1 h2 h3]] at hmem
            rcases List.mem_append.mp hmem with h | h
            · exact evs4_no_complete t tr h
            · simp [evComplete, evError] at h
        · exfalso
          rw [processVideo_of_err (by rw [processCore_ffFail h0 h1 h2]),
            show (processCore t tr).events
              = ((ev5 :: (dlStage tr.dlChunks).1.events) ++ [ev65]) ++
                ev70 :: ffEvents tr.ffChunks from by
              rw [processCore_ffFail h0 h1 h2]] at hmem
          rcases List.mem_append.mp hmem with h | h
          · exact evs4_no_complete t tr (List.mem_append_left _ h)
          · simp [evComplete, evError] at h
      · exfalso
        rw [processVideo_of_err (by rw [processCore_findFail h0 h1]),
          show (processCore t tr).events
            = (ev5 :: (dlStage tr.dlChunks).1.events) ++ [ev65] from by
            rw [processCore_findFail h0 h1]] at hmem
        rcases List.mem_append.mp hmem with h | h
        · exact evs4_no_complete t tr
            (List.mem_append_left _ (List.mem_append_left _ h))
        · simp [evComplete, evError] at h
    · exfalso
      rw [processVideo_of_err (by rw [processCore_dlFail h0]),
        show (processCore t tr).events
          = ev5 :: (dlStage tr.dlChunks).1.events from by
          rw [processCore_dlFail h0]] at hmem
      rcases List.mem_append.mp hmem with h | h
      · exact evs4_no_complete t tr
          (List.mem_append_left _ (List.mem_append_left _ (List.mem_append_left _ h)))
      · simp [evComplete, evError] at h
  · intro h0 h1 h2 h3
    have herr : (processCore t tr).err = some msgNoResult := by
      rw [processCore_noResult h0 h1 h2 h3]
    rw [processVideo_of_err herr,
      show (processCore t tr).events
        = (((ev5 :: (dlStage tr.dlChunks).1.events) ++ [ev65]) ++
          ev70 :: ffEvents tr.ffChunks) ++ [ev96] from by
        rw [processCore_noResult h0 h1 h2 h3],
      show (processCore t tr).dir
        = successCleanup t.taskId (tempName t) t.outName (dirAtCut t tr) from by
        rw [processCore_noResult h0 h1 h2 h3]]
    exact ⟨List.getLast?_concat _, rfl⟩

/-- C9 witness: a successful concrete run has its output file in the final
directory with the complete event last, and the same run with the cut
stage's output file missing ends with the artifact-missing error event. -/
theorem c9_witness :
    (tX9.outName ∈ (processVideo tX9 trX9).2 ∧
      (processVideo tX9 trX9).1.getLast? = some (evComplete tX9.outName)) ∧
    (processVideo tX9 trX9b).1.getLast? = some (evError msgNoResult) :=
  ⟨(c9_complete_only_with_artifact tX9 trX9).1 (by decide),
   ((c9_complete_only_with_artifact tX9 trX9b).2 (by decide) (by decide) (by decide)
     (by decide)).1⟩
